import Mathlib

/-!
Verification development for the chengdu-chat7 chat-room component and the
message-sync and delivery coordinator its specification describes.

The repository source `src/components/ChatRoom.tsx` is a React view component;
its local state transitions (composer text, send-error banner, resizable
textarea height) are embedded directly as pure functions below, in the
`ChatRoom` namespace.

The coordinator (Room Timeline Store, Sync Engine, Outbound Delivery Queue,
Transport Session) is not present in the repository: the UI delegates to an
external Matrix SDK. Those components are modelled from the specification's
contracts, in the `Timeline`, `Sync`, `Delivery` and `Transport` namespaces;
each such definition's doc comment says so.
-/

namespace ChatRoom

/-- Embeds the composer-relevant React state of `ChatRoom`:
`newMessage` (the textarea value) and `sendError` (the error banner text,
`null` in the source becomes `none`). -/
structure ComposerState where
  newMessage : String
  sendError : Option String
deriving DecidableEq, Repr

/-- Outcome of the awaited `matrixService.sendMessage` promise inside
`handleSend`: it either resolves or rejects. -/
inductive SendOutcome
  | resolved
  | rejected
deriving DecidableEq, Repr

/-- The error string set by the catch branch of `handleSend`. -/
def sendFailureMessage : String := "Failed to send message. Please try again."

/-- Embeds the JavaScript `String.prototype.trim` used by the guard in
`handleSend`: strips leading and trailing whitespace. Implemented over the
string's character list by structural recursion so that it computes. -/
def trimString (s : String) : String :=
  ⟨((s.data.dropWhile Char.isWhitespace).reverse.dropWhile Char.isWhitespace).reverse⟩

/-- Embeds `handleSend` (ChatRoom.tsx lines 52-65). Returns the resulting
composer state and whether `matrixService.sendMessage` was invoked.
The JavaScript guard `if (!newMessage.trim()) return;` is the early exit;
otherwise `setSendError(null)` runs, then the send is awaited: on resolve
`setNewMessage('')`, on reject `setSendError(sendFailureMessage)`. -/
def handleSend (st : ComposerState) (outcome : SendOutcome) :
    ComposerState × Bool :=
  if trimString st.newMessage = "" then (st, false)
  else
    let st1 : ComposerState := { st with sendError := none }
    match outcome with
    | .resolved => ({ st1 with newMessage := "" }, true)
    | .rejected => ({ st1 with sendError := some sendFailureMessage }, true)

/-- Embeds the `useState(100)` initialiser of `textareaHeight`
(ChatRoom.tsx line 19). -/
def initialTextareaHeight : Int := 100

/-- Embeds the height update performed by `handleMouseMove`
(ChatRoom.tsx lines 39-44):
`setTextareaHeight((prev) => Math.min(Math.max(prev + delta, 100), 400))`. -/
def handleMouseMove (prev delta : Int) : Int :=
  min (max (prev + delta) 100) 400

/-- The textarea height after a sequence of mouse-move deltas applied during
resizes, starting from the initial height. -/
def heightAfter (deltas : List Int) : Int :=
  deltas.foldl handleMouseMove initialTextareaHeight

end ChatRoom

/-- Modelled from the spec: an Event of the data model (section 3) — unique
server-assigned identifier, room identifier, sender identifier, content
payload, server timestamp, local-echo flag. Identifiers and timestamps are
numbers; the payload is its text. -/
structure Event where
  id : Nat
  roomId : Nat
  sender : Nat
  content : String
  ts : Nat
  isLocalEcho : Bool
deriving DecidableEq, Repr

namespace Timeline

/-- The identifiers occurring in a timeline, in order. -/
def eventIds (tl : List Event) : List Nat := tl.map (fun e => e.id)

/-- A timeline has no two events with the same identifier. -/
def noDupIds (tl : List Event) : Prop := (eventIds tl).Nodup

/-- Modelled from the spec: chronological insertion used by the Room Timeline
Store (section 4.3) — the event is placed before the first strictly later
event, so events already delivered keep their relative order and an event is
inserted after existing events with the same timestamp. -/
def insertByTs (e : Event) : List Event → List Event
  | [] => [e]
  | x :: xs => if e.ts < x.ts then e :: x :: xs else x :: insertByTs e xs

/-- Modelled from the spec: `append(event)` of the Room Timeline Store
(section 4.3) — dedups by identifier, otherwise inserts chronologically. -/
def append (e : Event) (tl : List Event) : List Event :=
  if tl.any (fun x => x.id = e.id) then tl else insertByTs e tl

/-- Modelled from the spec: `merge(events)` of the Room Timeline Store
(section 4.3) — dedups by identifier and preserves chronological order, by
appending each event of the batch in turn. -/
def merge (evs : List Event) (tl : List Event) : List Event :=
  evs.foldl (fun t e => append e t) tl

/-- An operation applied to the Room Timeline Store. -/
inductive TlOp
  | append (e : Event)
  | merge (evs : List Event)

/-- Apply one store operation. -/
def applyOp (tl : List Event) : TlOp → List Event
  | .append e => append e tl
  | .merge evs => merge evs tl

/-- Apply a sequence of store operations. -/
def applyOps (ops : List TlOp) (tl : List Event) : List Event :=
  ops.foldl applyOp tl

/-- Pairwise chronological order by server timestamp. -/
def chronOrdered (tl : List Event) : Prop :=
  tl.Pairwise (fun a b => a.ts ≤ b.ts)

end Timeline

namespace Sync

/-- Modelled from the spec: the state the Sync Engine owns (section 4.1) —
the persisted resumable cursor and the room timeline it merges into. -/
structure SyncState where
  cursor : Nat
  timeline : List Event
deriving DecidableEq, Repr

/-- Modelled from the spec: the result of one `sync(cursor)` call
(section 4.1) — on success a batch of events and a new cursor, otherwise a
`NetworkError` (transient) or an `AuthError` (fatal). -/
inductive SyncResult
  | ok (events : List Event) (newCursor : Nat)
  | networkError
  | authError
deriving DecidableEq, Repr

/-- Whether a sync call failed. -/
def SyncResult.failed : SyncResult → Bool
  | .ok _ _ => false
  | .networkError => true
  | .authError => true

/-- Modelled from the spec: how the Sync Engine commits one sync outcome
(sections 4.1 and 7) — on success it merges the returned events into the
timeline and only then advances the cursor; a failed sync leaves cursor and
timeline untouched. -/
def applySync (st : SyncState) (r : SyncResult) : SyncState :=
  match r with
  | .ok evs c => { cursor := c, timeline := Timeline.merge evs st.timeline }
  | .networkError => st
  | .authError => st

end Sync

namespace Delivery

/-- Modelled from the spec: the delivery state of a LocalEcho (section 3):
pending, sent, or permanently failed. -/
inductive EchoState
  | pending
  | sent
  | permanentlyFailed
deriving DecidableEq, Repr

/-- Modelled from the spec: a LocalEcho (section 3) — client-generated
temporary identifier, payload, creation time, delivery state, plus the
attempt counter the bounded-retry contract of section 4.2 requires. -/
structure LocalEcho where
  echoId : Nat
  payload : String
  createdAt : Nat
  attempts : Nat
  state : EchoState
deriving DecidableEq, Repr

/-- Modelled from the spec: the bounded attempt count of section 4.2, fixed
at three by the scenario of section 8 (after 3 failed attempts the echo is
permanently failed). -/
def maxAttempts : Nat := 3

/-- Base delay of the exponential backoff schedule, in milliseconds. -/
def baseBackoffMs : Nat := 1000

/-- Modelled from the spec: exponential backoff (section 4.2) — the delay
before retry number `attempt` doubles with each attempt. -/
def backoffDelay (attempt : Nat) : Nat := baseBackoffMs * 2 ^ attempt

/-- Modelled from the spec: one background delivery attempt for a LocalEcho
(section 4.2). `outcome` is true when `send(payload)` succeeds. Returns the
updated echo, whether a send attempt was made, and whether a terminal error
was surfaced to the consumer this step. Terminal states are never retried. -/
def deliverStep (e : LocalEcho) (outcome : Bool) : LocalEcho × Bool × Bool :=
  if e.state = .pending then
    if outcome then ({ e with state := .sent }, true, false)
    else
      let a := e.attempts + 1
      if maxAttempts ≤ a then
        ({ e with attempts := a, state := .permanentlyFailed }, true, true)
      else ({ e with attempts := a }, true, false)
  else (e, false, false)

/-- The echo after the delivery loop processes a sequence of send outcomes. -/
def runDelivery : List Bool → LocalEcho → LocalEcho
  | [], e => e
  | o :: rest, e => runDelivery rest (deliverStep e o).1

/-- How many send attempts the delivery loop makes over a sequence of
outcomes. -/
def attemptsUsed : List Bool → LocalEcho → Nat
  | [], _ => 0
  | o :: rest, e =>
      (if (deliverStep e o).2.1 then 1 else 0) + attemptsUsed rest (deliverStep e o).1

/-- Whether the delivery loop surfaces a terminal error to the consumer at
some step of the run. -/
def errorSurfaced : List Bool → LocalEcho → Bool
  | [], _ => false
  | o :: rest, e => (deliverStep e o).2.2 || errorSurfaced rest (deliverStep e o).1

/-- Modelled from the spec: the Outbound Delivery Queue state (section 4.2) —
a fresh-id counter, the optimistically appended local echoes, and the log of
completed network sends. -/
structure DeliveryQueue where
  nextEchoId : Nat
  echoes : List LocalEcho
  sendLog : List String
deriving DecidableEq, Repr

/-- Modelled from the spec: `enqueue(payload) -> localEchoId` (section 4.2) —
non-blocking, immediately appends a pending LocalEcho with a fresh temporary
identifier; no network send happens as part of the call. -/
def enqueue (payload : String) (now : Nat) (q : DeliveryQueue) :
    Nat × DeliveryQueue :=
  (q.nextEchoId,
   { q with
       nextEchoId := q.nextEchoId + 1,
       echoes := q.echoes ++ [⟨q.nextEchoId, payload, now, 0, .pending⟩] })

/-- Whether a timeline entry is the local-echo placeholder carrying the given
temporary identifier. -/
def isEchoEntry (tempId : Nat) (ev : Event) : Bool :=
  ev.isLocalEcho && (ev.id == tempId)

/-- Modelled from the spec: reconciliation (section 4.2 and glossary) — the
timeline entry carrying the local echo's temporary identifier is replaced by
the server-confirmed event. -/
def reconcile (tempId : Nat) (confirmed : Event) (tl : List Event) :
    List Event :=
  tl.map (fun ev => if isEchoEntry tempId ev then confirmed else ev)

end Delivery

namespace Transport

/-- Modelled from the spec: the Transport Session and the cancellable tasks
hanging off it (sections 4.4 and 5) — the connection flag, the number of
scheduled delivery-retry timers, and whether a sync poll loop is active. -/
structure Session where
  connected : Bool
  scheduledRetries : Nat
  activeSyncPoll : Bool
deriving DecidableEq, Repr

/-- Modelled from the spec: `disconnect()` (sections 4.4 and 5) — drops the
connection and cancels all in-flight retries and sync polls. -/
def disconnect (_s : Session) : Session :=
  { connected := false, scheduledRetries := 0, activeSyncPoll := false }

/-- An asynchronous occurrence after which the session might attempt network
activity: a retry timer firing or a sync poll coming due. -/
inductive SessionAct
  | timerFires
  | syncPollDue
deriving DecidableEq, Repr

/-- Modelled from the spec: how the session reacts to one occurrence — a send
attempt (returned flag) happens only on a live connection, for a scheduled
retry timer or an active sync poll. -/
def sessionStep (s : Session) (a : SessionAct) : Session × Bool :=
  if s.connected = true then
    match a with
    | .timerFires =>
        if 0 < s.scheduledRetries then
          ({ s with scheduledRetries := s.scheduledRetries - 1 }, true)
        else (s, false)
    | .syncPollDue => (s, s.activeSyncPoll)
  else (s, false)

/-- How many send attempts occur while the session processes a sequence of
occurrences. -/
def sendAttempts : List SessionAct → Session → Nat
  | [], _ => 0
  | a :: rest, s =>
      (if (sessionStep s a).2 then 1 else 0) + sendAttempts rest (sessionStep s a).1

end Transport

/-- The event E1 of the out-of-order-arrival scenario (spec section 8):
timestamp strictly below E2's. -/
def demoE1 : Event := ⟨1, 7, 4, "E1", 10, false⟩

/-- The event E2 of the out-of-order-arrival scenario: timestamp strictly
between E1's and E3's. -/
def demoE2 : Event := ⟨2, 7, 4, "E2", 20, false⟩

/-- The event E3 of the out-of-order-arrival scenario: timestamp strictly
above E2's. -/
def demoE3 : Event := ⟨3, 7, 4, "E3", 30, false⟩

/-!
Theorems. Helper lemmas come first, then one theorem per claim of the
specification review, each preceded by a doc comment naming the claim.
-/

theorem insertByTs_perm (e : Event) (tl : List Event) :
    (Timeline.insertByTs e tl).Perm (e :: tl) := by
  induction tl with
  | nil => exact List.Perm.refl _
  | cons x xs ih =>
      by_cases h : e.ts < x.ts
      · simp [Timeline.insertByTs, h]
      · simp only [Timeline.insertByTs, if_neg h]
        exact (ih.cons x).trans (List.Perm.swap e x xs)

theorem eventIds_insertByTs_perm (e : Event) (tl : List Event) :
    (Timeline.eventIds (Timeline.insertByTs e tl)).Perm
      (e.id :: Timeline.eventIds tl) := by
  have h := (insertByTs_perm e tl).map (fun x => x.id)
  simpa [Timeline.eventIds] using h

theorem noDupIds_appendEvent (e : Event) {tl : List Event}
    (h : Timeline.noDupIds tl) : Timeline.noDupIds (Timeline.append e tl) := by
  unfold Timeline.append
  by_cases hc : (tl.any fun x => x.id = e.id) = true
  · rw [if_pos hc]; exact h
  · rw [if_neg hc]
    have hnot : e.id ∉ Timeline.eventIds tl := by
      simp only [List.any_eq_true, decide_eq_true_eq] at hc
      simp only [Timeline.eventIds, List.mem_map]
      rintro ⟨x, hx, hxe⟩
      exact hc ⟨x, hx, hxe⟩
    have hperm := eventIds_insertByTs_perm e tl
    exact hperm.nodup_iff.mpr (List.nodup_cons.mpr ⟨hnot, h⟩)

theorem noDupIds_mergeEvents (evs : List Event) :
    ∀ tl, Timeline.noDupIds tl → Timeline.noDupIds (Timeline.merge evs tl) := by
  induction evs with
  | nil => intro tl h; exact h
  | cons e rest ih =>
      intro tl h
      exact ih (Timeline.append e tl) (noDupIds_appendEvent e h)

theorem noDupIds_applyOps (ops : List Timeline.TlOp) :
    ∀ tl, Timeline.noDupIds tl → Timeline.noDupIds (Timeline.applyOps ops tl) := by
  induction ops with
  | nil => intro tl h; exact h
  | cons op rest ih =>
      intro tl h
      refine ih (Timeline.applyOp tl op) ?_
      cases op with
      | append e => exact noDupIds_appendEvent e h
      | merge evs => exact noDupIds_mergeEvents evs tl h

/-- C1: every sequence of append and merge operations applied to the Room
Timeline Store, starting from the empty store, yields a Timeline with no two
Events of the same identifier — append and merge deduplicate by identifier. -/
theorem timeline_no_duplicate_ids (ops : List Timeline.TlOp) :
    Timeline.noDupIds (Timeline.applyOps ops []) :=
  noDupIds_applyOps ops [] (by simp [Timeline.noDupIds, Timeline.eventIds])

theorem chronOrdered_insertByTs (e : Event) {tl : List Event}
    (h : Timeline.chronOrdered tl) :
    Timeline.chronOrdered (Timeline.insertByTs e tl) := by
  induction tl with
  | nil => simp [Timeline.insertByTs, Timeline.chronOrdered]
  | cons x xs ih =>
      rcases List.pairwise_cons.mp h with ⟨hx, hxs⟩
      by_cases hlt : e.ts < x.ts
      · simp only [Timeline.insertByTs, if_pos hlt]
        refine List.pairwise_cons.mpr ⟨?_, h⟩
        intro b hb
        rcases List.mem_cons.mp hb with hb | hb
        · subst hb; exact le_of_lt hlt
        · exact le_trans (le_of_lt hlt) (hx b hb)
      · simp only [Timeline.insertByTs, if_neg hlt]
        refine List.pairwise_cons.mpr ⟨?_, ih hxs⟩
        intro b hb
        rcases List.mem_cons.mp ((insertByTs_perm e xs).mem_iff.mp hb) with hb2 | hb2
        · subst hb2; exact le_of_not_lt hlt
        · exact hx b hb2

theorem sublist_insertByTs (e : Event) (tl : List Event) :
    tl.Sublist (Timeline.insertByTs e tl) := by
  induction tl with
  | nil => simp [Timeline.insertByTs]
  | cons x xs ih =>
      by_cases hlt : e.ts < x.ts
      · simp only [Timeline.insertByTs, if_pos hlt]
        exact (List.Sublist.refl (x :: xs)).cons e
      · simp only [Timeline.insertByTs, if_neg hlt]
        exact ih.cons₂ x

theorem sublist_appendEvent (e : Event) (tl : List Event) :
    tl.Sublist (Timeline.append e tl) := by
  unfold Timeline.append
  split
  · exact List.Sublist.refl tl
  · exact sublist_insertByTs e tl

theorem chronOrdered_appendEvent (e : Event) {tl : List Event}
    (h : Timeline.chronOrdered tl) :
    Timeline.chronOrdered (Timeline.append e tl) := by
  unfold Timeline.append
  split
  · exact h
  · exact chronOrdered_insertByTs e h

theorem sublist_mergeEvents (evs : List Event) :
    ∀ tl : List Event, List.Sublist tl (Timeline.merge evs tl) := by
  induction evs with
  | nil => intro tl; exact List.Sublist.refl tl
  | cons e rest ih =>
      intro tl
      exact (sublist_appendEvent e tl).trans (ih (Timeline.append e tl))

theorem chronOrdered_mergeEvents (evs : List Event) :
    ∀ tl, Timeline.chronOrdered tl →
      Timeline.chronOrdered (Timeline.merge evs tl) := by
  induction evs with
  | nil => intro tl h; exact h
  | cons e rest ih =>
      intro tl h
      exact ih (Timeline.append e tl) (chronOrdered_appendEvent e h)

/-- C2: merging a batch into the Room Timeline Store keeps the Timeline
chronologically ordered by server timestamp and leaves the previously
delivered Timeline a sublist of the result (merge only inserts, never
reorders); in particular merging [E1,E3] and then [E2], with E2's timestamp
between E1's and E3's, yields [E1,E2,E3]. -/
theorem merge_ordered_append_only :
    (∀ (evs tl : List Event), Timeline.chronOrdered tl →
        Timeline.chronOrdered (Timeline.merge evs tl) ∧
          tl.Sublist (Timeline.merge evs tl))
    ∧ Timeline.merge [demoE2] (Timeline.merge [demoE1, demoE3] []) =
        [demoE1, demoE2, demoE3] := by
  refine ⟨fun evs tl h => ⟨chronOrdered_mergeEvents evs tl h, sublist_mergeEvents evs tl⟩, ?_⟩
  decide

/-- Witness for C2 at a concrete input: the already-sorted timeline [E1,E3]
merged with [E2] stays sorted and keeps [E1,E3] as a sublist. -/
theorem merge_ordered_append_only_witness :
    Timeline.chronOrdered (Timeline.merge [demoE2] [demoE1, demoE3]) ∧
      List.Sublist [demoE1, demoE3] (Timeline.merge [demoE2] [demoE1, demoE3]) :=
  merge_ordered_append_only.1 [demoE2] [demoE1, demoE3]
    (by unfold Timeline.chronOrdered; decide)

theorem handleMouseMove_bounds (p d : Int) :
    100 ≤ ChatRoom.handleMouseMove p d ∧ ChatRoom.handleMouseMove p d ≤ 400 := by
  unfold ChatRoom.handleMouseMove
  exact ⟨le_min (le_max_right _ _) (by norm_num), min_le_right _ _⟩

theorem heightAfter_bounds_aux (deltas : List Int) :
    ∀ p : Int, 100 ≤ p → p ≤ 400 →
      100 ≤ deltas.foldl ChatRoom.handleMouseMove p ∧
        deltas.foldl ChatRoom.handleMouseMove p ≤ 400 := by
  induction deltas with
  | nil => intro p h1 h2; exact ⟨h1, h2⟩
  | cons d rest ih =>
      intro p _ _
      exact ih (ChatRoom.handleMouseMove p d) (handleMouseMove_bounds p d).1
        (handleMouseMove_bounds p d).2

/-- C8: the composer textarea height starts at 100 and, after any sequence of
mouse-move deltas applied through handleMouseMove's clamp, stays within
[100, 400]. -/
theorem textareaHeight_in_bounds :
    ChatRoom.initialTextareaHeight = 100 ∧
      ∀ deltas : List Int,
        100 ≤ ChatRoom.heightAfter deltas ∧ ChatRoom.heightAfter deltas ≤ 400 := by
  refine ⟨rfl, fun deltas => ?_⟩
  exact heightAfter_bounds_aux deltas ChatRoom.initialTextareaHeight
    (by norm_num [ChatRoom.initialTextareaHeight])
    (by norm_num [ChatRoom.initialTextareaHeight])

/-- C9: when the trimmed composer text is empty, handleSend makes no send call
and leaves the composer state (newMessage, sendError) unchanged. -/
theorem handleSend_empty_noop (st : ChatRoom.ComposerState)
    (outcome : ChatRoom.SendOutcome)
    (h : ChatRoom.trimString st.newMessage = "") :
    ChatRoom.handleSend st outcome = (st, false) := by
  unfold ChatRoom.handleSend
  rw [if_pos h]

/-- Witness for C9: a whitespace-only composer text is a no-op. -/
theorem handleSend_empty_noop_witness :
    ChatRoom.handleSend ⟨"  ", none⟩ ChatRoom.SendOutcome.resolved =
      (⟨"  ", none⟩, false) :=
  handleSend_empty_noop ⟨"  ", none⟩ ChatRoom.SendOutcome.resolved (by decide)

/-- C10: with nonempty trimmed text, a rejected send leaves newMessage
unchanged and sets sendError to the failure string, while a resolved send
clears newMessage and leaves sendError null (it was cleared before the
attempt). -/
theorem handleSend_clear_on_success_only (st : ChatRoom.ComposerState)
    (h : ChatRoom.trimString st.newMessage ≠ "") :
    (ChatRoom.handleSend st .rejected).1.newMessage = st.newMessage ∧
    (ChatRoom.handleSend st .rejected).1.sendError =
      some ChatRoom.sendFailureMessage ∧
    (ChatRoom.handleSend st .resolved).1.newMessage = "" ∧
    (ChatRoom.handleSend st .resolved).1.sendError = none := by
  refine ⟨?_, ?_, ?_, ?_⟩ <;> simp [ChatRoom.handleSend, h]

/-- Witness for C10 at the concrete composer text "hi" with a stale error. -/
theorem handleSend_clear_on_success_only_witness :
    (ChatRoom.handleSend ⟨"hi", some "old"⟩ .rejected).1.sendError =
        some ChatRoom.sendFailureMessage ∧
      (ChatRoom.handleSend ⟨"hi", some "old"⟩ .resolved).1.newMessage = "" :=
  ⟨(handleSend_clear_on_success_only ⟨"hi", some "old"⟩ (by decide)).2.1,
   (handleSend_clear_on_success_only ⟨"hi", some "old"⟩ (by decide)).2.2.1⟩

theorem appendEvent_of_mem_ids (e : Event) (tl : List Event)
    (h : e.id ∈ Timeline.eventIds tl) : Timeline.append e tl = tl := by
  have hc : (tl.any fun x => x.id = e.id) = true := by
    simp only [Timeline.eventIds, List.mem_map] at h
    simp only [List.any_eq_true, decide_eq_true_eq]
    rcases h with ⟨x, hx, hxe⟩
    exact ⟨x, hx, hxe⟩
  unfold Timeline.append
  rw [if_pos hc]

theorem ids_subset_appendEvent (e : Event) (tl : List Event) :
    Timeline.eventIds tl ⊆ Timeline.eventIds (Timeline.append e tl) := by
  unfold Timeline.append
  split
  · exact fun i hi => hi
  · intro i hi
    exact ((eventIds_insertByTs_perm e tl).mem_iff).mpr
      (List.mem_cons.mpr (Or.inr hi))

theorem self_mem_ids_appendEvent (e : Event) (tl : List Event) :
    e.id ∈ Timeline.eventIds (Timeline.append e tl) := by
  unfold Timeline.append
  by_cases hc : (tl.any fun x => x.id = e.id) = true
  · rw [if_pos hc]
    simp only [List.any_eq_true, decide_eq_true_eq] at hc
    rcases hc with ⟨x, hx, hxe⟩
    simp only [Timeline.eventIds, List.mem_map]
    exact ⟨x, hx, hxe⟩
  · rw [if_neg hc]
    exact ((eventIds_insertByTs_perm e tl).mem_iff).mpr
      (List.mem_cons.mpr (Or.inl rfl))

theorem ids_subset_mergeEvents (evs : List Event) :
    ∀ tl : List Event,
      Timeline.eventIds tl ⊆ Timeline.eventIds (Timeline.merge evs tl) := by
  induction evs with
  | nil => intro tl; exact fun i hi => hi
  | cons e rest ih =>
      intro tl i hi
      exact ih (Timeline.append e tl) (ids_subset_appendEvent e tl hi)

theorem mem_ids_mergeEvents (evs : List Event) :
    ∀ tl : List Event, ∀ e ∈ evs,
      e.id ∈ Timeline.eventIds (Timeline.merge evs tl) := by
  induction evs with
  | nil => intro tl e he; cases he
  | cons x rest ih =>
      intro tl e he
      rcases List.mem_cons.mp he with he | he
      · subst he
        exact ids_subset_mergeEvents rest (Timeline.append e tl)
          (self_mem_ids_appendEvent e tl)
      · exact ih (Timeline.append x tl) e he

theorem mergeEvents_noop (evs : List Event) :
    ∀ tl : List Event, (∀ e ∈ evs, e.id ∈ Timeline.eventIds tl) →
      Timeline.merge evs tl = tl := by
  induction evs with
  | nil => intro tl _; rfl
  | cons x rest ih =>
      intro tl h
      have hx : Timeline.append x tl = tl :=
        appendEvent_of_mem_ids x tl (h x (List.mem_cons_self x rest))
      have hstep : Timeline.merge (x :: rest) tl =
          Timeline.merge rest (Timeline.append x tl) := rfl
      rw [hstep, hx]
      exact ih tl (fun e he => h e (List.mem_cons_of_mem x he))

theorem mergeEvents_idem (evs tl : List Event) :
    Timeline.merge evs (Timeline.merge evs tl) = Timeline.merge evs tl :=
  mergeEvents_noop evs (Timeline.merge evs tl)
    (fun e he => mem_ids_mergeEvents evs tl e he)

/-- C3: a failed sync leaves the cursor and the Timeline exactly as they
were, and retrying a sync from the same cursor is idempotent: re-applying the
same returned batch leaves the sync state (cursor and Timeline) unchanged;
the cursor only advances together with the committed merge on success. -/
theorem sync_failure_safe_retry_idempotent :
    (∀ (st : Sync.SyncState) (r : Sync.SyncResult),
        r.failed = true → Sync.applySync st r = st)
    ∧ (∀ (st : Sync.SyncState) (evs : List Event) (c : Nat),
        Sync.applySync (Sync.applySync st (.ok evs c)) (.ok evs c) =
          Sync.applySync st (.ok evs c)) := by
  constructor
  · intro st r h
    cases r with
    | ok evs c => simp [Sync.SyncResult.failed] at h
    | networkError => rfl
    | authError => rfl
  · intro st evs c
    show Sync.SyncState.mk c (Timeline.merge evs (Timeline.merge evs st.timeline)) =
      Sync.SyncState.mk c (Timeline.merge evs st.timeline)
    rw [mergeEvents_idem]

/-- Witness for C3: a network error at cursor 5 leaves the state untouched,
and a retried merge of the same batch is idempotent at a concrete state. -/
theorem sync_failure_safe_retry_idempotent_witness :
    Sync.applySync ⟨5, [demoE1]⟩ Sync.SyncResult.networkError = ⟨5, [demoE1]⟩ ∧
      Sync.applySync (Sync.applySync ⟨5, [demoE1]⟩ (.ok [demoE2] 6)) (.ok [demoE2] 6) =
        Sync.applySync ⟨5, [demoE1]⟩ (.ok [demoE2] 6) :=
  ⟨sync_failure_safe_retry_idempotent.1 ⟨5, [demoE1]⟩ Sync.SyncResult.networkError rfl,
   sync_failure_safe_retry_idempotent.2 ⟨5, [demoE1]⟩ [demoE2] 6⟩

theorem deliverStep_not_pending (e : Delivery.LocalEcho) (o : Bool)
    (h : ¬ e.state = .pending) : Delivery.deliverStep e o = (e, false, false) := by
  unfold Delivery.deliverStep
  rw [if_neg h]

theorem deliverStep_pending_success (e : Delivery.LocalEcho)
    (h : e.state = .pending) :
    Delivery.deliverStep e true = ({ e with state := .sent }, true, false) := by
  unfold Delivery.deliverStep
  rw [if_pos h]
  rfl

theorem deliverStep_pending_fail_terminal (e : Delivery.LocalEcho)
    (h : e.state = .pending) (hm : Delivery.maxAttempts ≤ e.attempts + 1) :
    Delivery.deliverStep e false =
      ({ e with attempts := e.attempts + 1, state := .permanentlyFailed },
        true, true) := by
  unfold Delivery.deliverStep
  rw [if_pos h]
  simp [hm]

theorem deliverStep_pending_fail_retry (e : Delivery.LocalEcho)
    (h : e.state = .pending) (hm : ¬ Delivery.maxAttempts ≤ e.attempts + 1) :
    Delivery.deliverStep e false =
      ({ e with attempts := e.attempts + 1 }, true, false) := by
  unfold Delivery.deliverStep
  rw [if_pos h]
  simp [hm]

theorem runDelivery_terminal (outcomes : List Bool) :
    ∀ e : Delivery.LocalEcho, ¬ e.state = .pending →
      Delivery.runDelivery outcomes e = e := by
  induction outcomes with
  | nil => intro e _; rfl
  | cons o rest ih =>
      intro e h
      simp only [Delivery.runDelivery, deliverStep_not_pending e o h]
      exact ih e h

theorem attemptsUsed_terminal (outcomes : List Bool) :
    ∀ e : Delivery.LocalEcho, ¬ e.state = .pending →
      Delivery.attemptsUsed outcomes e = 0 := by
  induction outcomes with
  | nil => intro e _; rfl
  | cons o rest ih =>
      intro e h
      simp only [Delivery.attemptsUsed, deliverStep_not_pending e o h]
      simpa using ih e h

theorem attemptsUsed_le (outcomes : List Bool) :
    ∀ e : Delivery.LocalEcho,
      (e.state = .pending → e.attempts < Delivery.maxAttempts) →
        Delivery.attemptsUsed outcomes e ≤ Delivery.maxAttempts - e.attempts := by
  induction outcomes with
  | nil => intro e _; exact Nat.zero_le _
  | cons o rest ih =>
      intro e hinv
      by_cases hp : e.state = .pending
      · have ha := hinv hp
        cases o with
        | true =>
            simp only [Delivery.attemptsUsed, deliverStep_pending_success e hp]
            have hz : Delivery.attemptsUsed rest { e with state := .sent } = 0 :=
              attemptsUsed_terminal rest _ (by simp)
            simp [hz]
            omega
        | false =>
            by_cases hm : Delivery.maxAttempts ≤ e.attempts + 1
            · simp only [Delivery.attemptsUsed,
                deliverStep_pending_fail_terminal e hp hm]
              have hz := attemptsUsed_terminal rest
                { e with attempts := e.attempts + 1, state := .permanentlyFailed }
                (by simp)
              simp [hz]
              omega
            · simp only [Delivery.attemptsUsed,
                deliverStep_pending_fail_retry e hp hm]
              have hrec := ih { e with attempts := e.attempts + 1 }
                (fun _ => by simp; omega)
              simp only at hrec
              simp
              omega
      · simp only [Delivery.attemptsUsed, deliverStep_not_pending e o hp]
        simp [attemptsUsed_terminal rest e hp]

theorem runDelivery_pending_attempts (outcomes : List Bool) :
    ∀ e : Delivery.LocalEcho, e.state = .pending →
      (Delivery.runDelivery outcomes e).state = .pending →
      (Delivery.runDelivery outcomes e).attempts = e.attempts + outcomes.length := by
  induction outcomes with
  | nil => intro e _ _; rfl
  | cons o rest ih =>
      intro e hp hfinal
      simp only [Delivery.runDelivery] at hfinal ⊢
      cases o with
      | true =>
          rw [deliverStep_pending_success e hp] at hfinal ⊢
          rw [runDelivery_terminal rest _ (by simp)] at hfinal
          simp at hfinal
      | false =>
          by_cases hm : Delivery.maxAttempts ≤ e.attempts + 1
          · rw [deliverStep_pending_fail_terminal e hp hm] at hfinal ⊢
            rw [runDelivery_terminal rest _ (by simp)] at hfinal
            simp at hfinal
          · rw [deliverStep_pending_fail_retry e hp hm] at hfinal ⊢
            have := ih { e with attempts := e.attempts + 1 } (by simp [hp]) hfinal
            simp only at this
            simp [this]
            omega

theorem runDelivery_attempts_lt (outcomes : List Bool) :
    ∀ e : Delivery.LocalEcho,
      (e.state = .pending → e.attempts < Delivery.maxAttempts) →
      (Delivery.runDelivery outcomes e).state = .pending →
      (Delivery.runDelivery outcomes e).attempts < Delivery.maxAttempts := by
  induction outcomes with
  | nil => intro e h hp; exact h hp
  | cons o rest ih =>
      intro e hinv
      simp only [Delivery.runDelivery]
      refine ih (Delivery.deliverStep e o).1 ?_
      intro hp1
      by_cases hp : e.state = .pending
      · cases o with
        | true =>
            rw [deliverStep_pending_success e hp] at hp1
            simp at hp1
        | false =>
            by_cases hm : Delivery.maxAttempts ≤ e.attempts + 1
            · rw [deliverStep_pending_fail_terminal e hp hm] at hp1
              simp at hp1
            · rw [deliverStep_pending_fail_retry e hp hm] at hp1 ⊢
              simp
              omega
      · rw [deliverStep_not_pending e o hp] at hp1 ⊢
        exact hinv hp1

theorem reconcile_countP_zero (tempId : Nat) (confirmed : Event)
    (tl : List Event) :
    tl.countP (Delivery.isEchoEntry tempId) = 0 →
      (∀ ev ∈ tl, ev ≠ confirmed) →
      (Delivery.reconcile tempId confirmed tl).countP
        (fun ev => ev == confirmed) = 0 := by
  induction tl with
  | nil => intro _ _; rfl
  | cons x xs ih =>
      intro h0 hne
      rw [List.countP_cons] at h0
      have hx : Delivery.isEchoEntry tempId x = false := by
        by_cases hb : Delivery.isEchoEntry tempId x = true
        · rw [hb] at h0; simp at h0
        · simpa using hb
      rw [hx] at h0
      simp only [if_neg Bool.false_ne_true, Nat.add_zero] at h0
      simp only [Delivery.reconcile, List.map_cons, List.countP_cons]
      rw [hx]
      have hxc : (x == confirmed) = false := by
        have := hne x (List.mem_cons_self x xs)
        simpa using this
      simp only [if_neg Bool.false_ne_true, hxc]
      have := ih h0 (fun ev hev => hne ev (List.mem_cons_of_mem x hev))
      simpa [Delivery.reconcile] using this

theorem reconcile_countP_one (tempId : Nat) (confirmed : Event)
    (tl : List Event) :
    tl.countP (Delivery.isEchoEntry tempId) = 1 →
      (∀ ev ∈ tl, ev ≠ confirmed) →
      (Delivery.reconcile tempId confirmed tl).countP
        (fun ev => ev == confirmed) = 1 := by
  induction tl with
  | nil => intro h0 _; simp at h0
  | cons x xs ih =>
      intro h1 hne
      rw [List.countP_cons] at h1
      simp only [Delivery.reconcile, List.map_cons, List.countP_cons]
      by_cases hx : Delivery.isEchoEntry tempId x = true
      · rw [hx] at h1
        simp at h1
        rw [hx]
        have hxs : xs.countP (Delivery.isEchoEntry tempId) = 0 := by
          simpa using h1
        have hz := reconcile_countP_zero tempId confirmed xs hxs
          (fun ev hev => hne ev (List.mem_cons_of_mem x hev))
        simp only [Delivery.reconcile] at hz
        simp [hz]
      · have hx2 : Delivery.isEchoEntry tempId x = false := by simpa using hx
        rw [hx2] at h1 ⊢
        simp only [if_neg Bool.false_ne_true, Nat.add_zero] at h1
        have hxc : (x == confirmed) = false := by
          have := hne x (List.mem_cons_self x xs)
          simpa using this
        have := ih h1 (fun ev hev => hne ev (List.mem_cons_of_mem x hev))
        simp only [Delivery.reconcile] at this
        simp [hxc, this]

/-- C4: delivery retries are bounded: from a freshly enqueued pending echo at
most maxAttempts send attempts are ever made over any sequence of failures
and successes; the backoff delay doubles with every further attempt; and in
the offline scenario the echo for "hi" starts pending and after three failed
attempts is permanently failed with the error surfaced to the consumer. -/
theorem delivery_bounded_retries :
    (∀ (outcomes : List Bool) (e : Delivery.LocalEcho),
        e.state = .pending → e.attempts = 0 →
          Delivery.attemptsUsed outcomes e ≤ Delivery.maxAttempts)
    ∧ (∀ k, Delivery.backoffDelay (k + 1) = 2 * Delivery.backoffDelay k)
    ∧ (Delivery.enqueue "hi" 0 ⟨0, [], []⟩).2.echoes =
        [⟨0, "hi", 0, 0, .pending⟩]
    ∧ Delivery.runDelivery [false, false, false] ⟨0, "hi", 0, 0, .pending⟩ =
        ⟨0, "hi", 0, 3, .permanentlyFailed⟩
    ∧ Delivery.errorSurfaced [false, false, false] ⟨0, "hi", 0, 0, .pending⟩ =
        true := by
  refine ⟨?_, ?_, rfl, by decide, by decide⟩
  · intro outcomes e hp h0
    have h := attemptsUsed_le outcomes e
      (fun _ => by rw [h0]; decide)
    rw [h0] at h
    simpa using h
  · intro k
    simp [Delivery.backoffDelay, Nat.pow_succ]
    ring

/-- Witness for C4: four straight failures on a fresh echo stay within the
attempt bound. -/
theorem delivery_bounded_retries_witness :
    Delivery.attemptsUsed [false, false, false, false] ⟨0, "hi", 0, 0, .pending⟩ ≤
      Delivery.maxAttempts :=
  delivery_bounded_retries.1 [false, false, false, false]
    ⟨0, "hi", 0, 0, .pending⟩ rfl rfl

/-- C5: a fresh pending LocalEcho reaches a terminal outcome within
maxAttempts delivery steps — after processing at least maxAttempts send
outcomes its state is sent or permanently failed, never still pending — and
when it is sent, reconciliation replaces the unique timeline entry carrying
its temporary identifier by exactly one copy of the server-confirmed event. -/
theorem echo_terminal_outcome :
    (∀ (outcomes : List Bool) (e : Delivery.LocalEcho),
        e.state = .pending → e.attempts = 0 →
        Delivery.maxAttempts ≤ outcomes.length →
          (Delivery.runDelivery outcomes e).state = .sent ∨
            (Delivery.runDelivery outcomes e).state = .permanentlyFailed)
    ∧ (∀ (tempId : Nat) (confirmed : Event) (tl : List Event),
        tl.countP (Delivery.isEchoEntry tempId) = 1 →
        (∀ ev ∈ tl, ev ≠ confirmed) →
          (Delivery.reconcile tempId confirmed tl).countP
            (fun ev => ev == confirmed) = 1) := by
  constructor
  · intro outcomes e hp h0 hlen
    cases hst : (Delivery.runDelivery outcomes e).state with
    | pending =>
        exfalso
        have hatt := runDelivery_pending_attempts outcomes e hp hst
        have hlt := runDelivery_attempts_lt outcomes e
          (fun _ => by rw [h0]; decide) hst
        rw [hatt, h0] at hlt
        omega
    | sent => exact Or.inl rfl
    | permanentlyFailed => exact Or.inr rfl
  · intro tempId confirmed tl h1 hne
    exact reconcile_countP_one tempId confirmed tl h1 hne

/-- Witness for C5: three successive failures drive the fresh echo for "hi"
to a terminal state, and reconciling a one-echo timeline yields exactly one
confirmed event. -/
theorem echo_terminal_outcome_witness :
    ((Delivery.runDelivery [false, false, false] ⟨0, "hi", 0, 0, .pending⟩).state =
        Delivery.EchoState.sent ∨
      (Delivery.runDelivery [false, false, false] ⟨0, "hi", 0, 0, .pending⟩).state =
        Delivery.EchoState.permanentlyFailed)
    ∧ (Delivery.reconcile 9 demoE2 [⟨9, 7, 4, "E2", 20, true⟩]).countP
        (fun ev => ev == demoE2) = 1 :=
  ⟨echo_terminal_outcome.1 [false, false, false] ⟨0, "hi", 0, 0, .pending⟩
      rfl rfl (by decide),
   echo_terminal_outcome.2 9 demoE2 [⟨9, 7, 4, "E2", 20, true⟩]
      (by decide) (by decide)⟩

theorem sendAttempts_disconnected (acts : List Transport.SessionAct) :
    ∀ s : Transport.Session, s.connected = false →
      Transport.sendAttempts acts s = 0 := by
  induction acts with
  | nil => intro s _; rfl
  | cons a rest ih =>
      intro s h
      have hstep : Transport.sessionStep s a = (s, false) := by
        unfold Transport.sessionStep
        rw [if_neg]
        rw [h]
        simp
      simp only [Transport.sendAttempts, hstep]
      simpa using ih s h

/-- C6: once disconnect has run, no send attempt occurs in any execution:
disconnect drops the connection, cancels every scheduled retry timer and the
sync poll, and every subsequent sequence of timer firings and poll deadlines
produces zero send attempts. -/
theorem no_sends_after_disconnect :
    ∀ (s : Transport.Session) (acts : List Transport.SessionAct),
      Transport.sendAttempts acts (Transport.disconnect s) = 0 ∧
        (Transport.disconnect s).connected = false ∧
        (Transport.disconnect s).scheduledRetries = 0 ∧
        (Transport.disconnect s).activeSyncPoll = false := by
  intro s acts
  exact ⟨sendAttempts_disconnected acts (Transport.disconnect s) rfl, rfl, rfl, rfl⟩

/-- C7: enqueue returns the fresh local-echo id and immediately appends a
pending LocalEcho carrying it, with the send log untouched (no network send
has completed), and — when existing echo ids are below the fresh-id counter —
the returned id identifies exactly the newly appended pending echo. -/
theorem enqueue_immediate_pending :
    ∀ (payload : String) (now : Nat) (q : Delivery.DeliveryQueue),
      (∀ e ∈ q.echoes, e.echoId < q.nextEchoId) →
        ((Delivery.enqueue payload now q).2.echoes =
            q.echoes ++ [⟨q.nextEchoId, payload, now, 0, .pending⟩]
          ∧ (Delivery.enqueue payload now q).2.sendLog = q.sendLog
          ∧ (Delivery.enqueue payload now q).1 = q.nextEchoId
          ∧ (Delivery.enqueue payload now q).2.echoes.filter
              (fun e => e.echoId == q.nextEchoId) =
                [⟨q.nextEchoId, payload, now, 0, .pending⟩]) := by
  intro payload now q h
  refine ⟨rfl, rfl, rfl, ?_⟩
  show (q.echoes ++
        [(⟨q.nextEchoId, payload, now, 0, .pending⟩ : Delivery.LocalEcho)]).filter
      (fun e => e.echoId == q.nextEchoId) =
    [(⟨q.nextEchoId, payload, now, 0, .pending⟩ : Delivery.LocalEcho)]
  rw [List.filter_append]
  have h1 : q.echoes.filter (fun e => e.echoId == q.nextEchoId) = [] := by
    rw [List.filter_eq_nil_iff]
    intro e he
    have := h e he
    simp
    omega
  rw [h1]
  simp

/-- Witness for C7 on the empty queue, whose (vacuous) echo ids are below the
fresh-id counter. -/
theorem enqueue_immediate_pending_witness :
    (Delivery.enqueue "hi" 0 ⟨0, [], []⟩).2.echoes =
        [⟨0, "hi", 0, 0, .pending⟩] ∧
      (Delivery.enqueue "hi" 0 ⟨0, [], []⟩).2.sendLog = [] ∧
      (Delivery.enqueue "hi" 0 ⟨0, [], []⟩).1 = 0 ∧
      (Delivery.enqueue "hi" 0 ⟨0, [], []⟩).2.echoes.filter
          (fun e => e.echoId == 0) = [⟨0, "hi", 0, 0, .pending⟩] := by
  have h := enqueue_immediate_pending "hi" 0 ⟨0, [], []⟩ (by simp)
  simpa using h
